import Mathlib

/-!
Shallow embedding of the dynamic model-selection forecasting core of the
repository (files `src/models/ensemble/dynamic_selection/base_dynamic_selection.py`,
`.../dcs_la/dynamic_selection_by_local_accuracy.py`, `.../dsnaw/dsnaw.py`).

Conventions of the embedding:
* Python floats are modelled as rationals (`ℚ`); all arithmetic in the code
  is elementary (sums, products, divisions, absolute values).
* Python slices with negative bounds are modelled by `pySliceToNeg`
  (`l[:-k]`) and `pySliceFromNeg` (`l[-k:]`), reproducing the `k = 0`
  special cases of Python exactly.
* `numpy.argsort` is modelled as a stable sort of the index list by key;
  numpy's default quicksort fixes no tie order, the stable order is one
  faithful refinement of it.
* Ranking by cosine similarity `dot q w / (‖q‖ * ‖w‖)` is embedded through
  the strictly monotone encoding `cosKey` (sign of the dot product times its
  square, divided by the squared norm of `w`): for a fixed query `q`, key
  comparison agrees exactly with cosine-similarity comparison, while staying
  inside `ℚ` (no square roots).  The zero-norm convention of
  `sklearn.metrics.pairwise.cosine_similarity` (zero vectors get score `0`)
  is preserved because a zero window has dot product `0`.
* Ranking by `euclidean_distances` is embedded by the squared Euclidean
  distance `sqDist`, a strictly monotone encoding of the distance.
* Operations that raise in Python (sklearn metrics on empty inputs,
  `np.argmin` on an empty array, pairwise similarity against an empty
  window matrix) are embedded as `Option`/`Except` failures.
* A DCS-LA base model is a function `fit : X → y → (window → prediction)`:
  fitting returns the predictor the fitted object realizes.  A DSNAW base
  model is a bare predictor `window → prediction`, because `DSNAW.predict`
  and `DSNAW._evaluate_models` never call `fit`.
-/

namespace SpecEmbed

/-- Python slice `l[:-k]`: for `k = 0` this is `l[:0] = []`, otherwise it
drops the last `k` elements (all of them when `k ≥ len(l)`). -/
def pySliceToNeg {α : Type} (k : ℕ) (l : List α) : List α :=
  if k = 0 then [] else l.take (l.length - k)

/-- Python slice `l[-k:]`: for `k = 0` this is `l[0:] = l`, otherwise it
keeps the last `k` elements (all of them when `k ≥ len(l)`). -/
def pySliceFromNeg {α : Type} (k : ℕ) (l : List α) : List α :=
  if k = 0 then l else l.drop (l.length - k)

/-- `DynamicSelection._extract_lag_windows`: for `i in range(W, len(s) - 1)`
emit window `s[i-W:i]` and target `s[i]`.  Reindexed by `j = i - W`. -/
def extractLagWindows (W : ℕ) (s : List ℚ) : List (List ℚ) × List ℚ :=
  ((List.range (s.length - 1 - W)).map fun j => (s.drop j).take W,
   (List.range (s.length - 1 - W)).map fun j => s.getD (W + j) 0)

/-- Dot product of two equal-length vectors. -/
def dot (u v : List ℚ) : ℚ := (List.zipWith (· * ·) u v).sum

/-- Squared Euclidean norm. -/
def sqNorm (v : List ℚ) : ℚ := dot v v

/-- Strictly monotone rational encoding of the cosine similarity of query
`q` and window `w`: `sign (dot q w) * (dot q w)^2 / sqNorm w` (with the
sklearn convention that a zero-norm window scores `0`; the `‖q‖` factor is
a constant positive scale across one ranking and is dropped).  For a fixed
`q`, `cosKey q w1 ≤ cosKey q w2` holds iff the cosine similarity of `w1`
is at most that of `w2`. -/
def cosKey (q w : List ℚ) : ℚ :=
  let a := dot q w
  let x := if sqNorm w = 0 then 1 else sqNorm w
  if a < 0 then -(a * a / x) else a * a / x

/-- Squared Euclidean distance, the strictly monotone encoding of
`euclidean_distances`. -/
def sqDist (q w : List ℚ) : ℚ :=
  (List.zipWith (fun a b => (a - b) * (a - b)) q w).sum

/-- The comparison used to sort indices by their keys. -/
def keyLE (keys : List ℚ) (i j : ℕ) : Prop := keys.getD i 0 ≤ keys.getD j 0

instance (keys : List ℚ) : DecidableRel (keyLE keys) := fun i j =>
  inferInstanceAs (Decidable (keys.getD i 0 ≤ keys.getD j 0))

instance (keys : List ℚ) : IsTotal ℕ (keyLE keys) :=
  ⟨fun i j => le_total (keys.getD i 0) (keys.getD j 0)⟩

instance (keys : List ℚ) : IsTrans ℕ (keyLE keys) :=
  ⟨fun _ _ _ h h' => le_trans h h'⟩

/-- `numpy.argsort keys`: the index list `[0, …, n−1]` sorted so that the
keys are ascending (a stable sort; numpy's default quicksort fixes no tie
order). -/
def argsortKeys (keys : List ℚ) : List ℕ :=
  List.insertionSort (keyLE keys) (List.range keys.length)

/-- `sklearn.metrics.mean_squared_error` on two equal-length nonempty
vectors (the caller guards emptiness, where sklearn raises). -/
def mseErr (yTrue yPred : List ℚ) : ℚ :=
  ((List.zipWith (fun a b => (a - b) * (a - b)) yTrue yPred).sum) / yTrue.length

/-- `sklearn.metrics.mean_absolute_error` on two equal-length nonempty
vectors (the caller guards emptiness, where sklearn raises). -/
def maeErr (yTrue yPred : List ℚ) : ℚ :=
  ((List.zipWith (fun a b => |a - b|) yTrue yPred).sum) / yTrue.length

/-- Minimum of a list (`0` on the empty list, never used there). -/
def listMin : List ℚ → ℚ
  | [] => 0
  | [x] => x
  | x :: y :: l => min x (listMin (y :: l))

/-- `numpy.argmin`: index of the first occurrence of the minimum. -/
def argminIdx : List ℚ → ℕ
  | [] => 0
  | [_] => 0
  | x :: y :: l => if x ≤ listMin (y :: l) then 0 else argminIdx (y :: l) + 1

/-- Similarity metric of `DCSLARegressor` (the code branches on the string
`"cosine"`, any other value selecting the Euclidean branch). -/
inductive Similarity : Type
  | cosine
  | euclidean
deriving DecidableEq

/-- The index selection of `DCSLARegressor.predict`:
`sims.argsort()[-top_k:]` for cosine, `dists.argsort()[:top_k]` for
euclidean. -/
def topIdx (sim : Similarity) (q : List ℚ) (ws : List (List ℚ)) (k : ℕ) :
    List ℕ :=
  match sim with
  | .cosine => pySliceFromNeg k (argsortKeys (ws.map (cosKey q)))
  | .euclidean => (argsortKeys (ws.map (sqDist q))).take k

/-- A DCS-LA base model: `fit X y` returns the predictor realized by the
fitted object. -/
abbrev FitModel : Type := List (List ℚ) → List ℚ → List ℚ → ℚ

/-- Configuration of `DCSLARegressor`. -/
structure DCSLAcfg : Type where
  models : List FitModel
  windowsSize : ℕ
  topK : ℕ
  similarity : Similarity

/-- The competence region of one `DCSLARegressor.predict` step:
`competence_X = windows[top_k_idx]`, `competence_y = targets[top_k_idx]`. -/
def dcslaRegion (c : DCSLAcfg) (yTrain currLags : List ℚ) :
    List (List ℚ) × List ℚ :=
  ((topIdx c.similarity currLags (extractLagWindows c.windowsSize yTrain).1 c.topK).map
      fun i => (extractLagWindows c.windowsSize yTrain).1.getD i [],
   (topIdx c.similarity currLags (extractLagWindows c.windowsSize yTrain).1 c.topK).map
      fun i => (extractLagWindows c.windowsSize yTrain).2.getD i 0)

/-- `DCSLARegressor._evaluate_models`: refit every model on `(X, y)` and
score it by the mean squared error of its predictions on that same `X`
(in-sample). -/
def dcslaErrors (c : DCSLAcfg) (X : List (List ℚ)) (y : List ℚ) : List ℚ :=
  c.models.map fun m => mseErr y (X.map (m X y))

/-- One step of the loop body of `DCSLARegressor.predict`: extract windows
from the current `y_train`, rank against `curr_lags`, refit every model on
the competence region, score each by in-sample MSE, and predict one step
from `curr_lags` with the argmin model.  `none` models the exceptions
sklearn raises on an empty window matrix, an empty competence region, or an
empty model pool. -/
def dcslaStep (c : DCSLAcfg) (yTrain currLags : List ℚ) : Option ℚ :=
  if (extractLagWindows c.windowsSize yTrain).1.isEmpty then none else
  if (dcslaRegion c yTrain currLags).1.isEmpty then none else
  if c.models.isEmpty then none else
  some ((c.models.getD
      (argminIdx (dcslaErrors c (dcslaRegion c yTrain currLags).1
        (dcslaRegion c yTrain currLags).2))
      fun _ _ _ => 0)
    (dcslaRegion c yTrain currLags).1 (dcslaRegion c yTrain currLags).2 currLags)

/-- The common per-step state advance of both selectors:
`y_train = np.append(y_train, v)` and
`curr_lags = np.append(curr_lags[1:], v)` with `v` the revealed true next
value. -/
def advanceState (st : List ℚ × List ℚ) (v : ℚ) : List ℚ × List ℚ :=
  (st.1 ++ [v], st.2.drop 1 ++ [v])

/-- State `(y_train, curr_lags)` after `s` loop iterations: the advance
folded over the first `s` revealed future values. -/
def iterAdvance (st : List ℚ × List ℚ) (l : List ℚ) : List ℚ × List ℚ :=
  l.foldl advanceState st

/-- The loop of `DCSLARegressor.predict`, one recursion step per revealed
future value. -/
def dcslaLoop (c : DCSLAcfg) : List ℚ × List ℚ → List ℚ → Option (List ℚ)
  | _, [] => some []
  | st, v :: fs => do
    let yn ← dcslaStep c st.1 st.2
    let rest ← dcslaLoop c (advanceState st v) fs
    pure (yn :: rest)

/-- `DCSLARegressor.predict`: length guard, train/future split, recursive
rollout; returns `(forecast, y_real_future)` on success. -/
def dcslaPredict (c : DCSLAcfg) (series : List ℚ) (horizon : ℕ) :
    Option (List ℚ × List ℚ) :=
  if series.length < c.windowsSize + horizon then none
  else
    let yTrain := pySliceToNeg horizon series
    let yFut := pySliceFromNeg horizon series
    let currLags := pySliceFromNeg c.windowsSize yTrain
    let futs := if horizon = 0 then [] else yFut
    (dcslaLoop c (yTrain, currLags) futs).map fun f => (f, yFut)

/-- A DSNAW base model: a bare predictor, since `DSNAW.predict` and
`DSNAW._evaluate_models` never call `fit`. -/
abbrev Predictor : Type := List ℚ → ℚ

/-- Configuration of `DSNAW`. -/
structure DSNAWcfg : Type where
  models : List Predictor
  lastK : ℕ
  windowsSize : ℕ

/-- Per-model error history (`self.history_errors`), one entry per base
model, aligned with the model list. -/
abbrev Hist : Type := List (List ℚ)

/-- `DynamicSelection.update_history` on the singleton dict
`{best_model: y_pred}`: append `|y_true − y_pred|` to the chosen model's
error list. -/
def updateHistory (i : ℕ) (yTrue yPred : ℚ) (h : Hist) : Hist :=
  h.set i (h.getD i [] ++ [|yTrue - yPred|])

/-- The competence region of one `DSNAW.predict` step:
`competence_X = windows[:-last_k]`, `competence_y = targets[:-last_k]` —
the extracted window set with its most recent `last_k` entries removed. -/
def dsnawRegion (c : DSNAWcfg) (yTrain : List ℚ) : List (List ℚ) × List ℚ :=
  (pySliceToNeg c.lastK (extractLagWindows c.windowsSize yTrain).1,
   pySliceToNeg c.lastK (extractLagWindows c.windowsSize yTrain).2)

/-- `DSNAW._evaluate_models`: score every pretrained model by the mean
absolute error of its predictions on `(X, y)`; no model is fit. -/
def dsnawErrors (c : DSNAWcfg) (X : List (List ℚ)) (y : List ℚ) : List ℚ :=
  c.models.map fun m => maeErr y (X.map m)

/-- One step of the loop body of `DSNAW.predict`: extract windows from the
current `y_train`, drop the most recent `last_k` (`windows[:-last_k]`),
score every pretrained model by MAE on that region, and predict one step
from `curr_lags` with the argmin model.  Returns the prediction and the
index of the chosen model; `none` models the exceptions sklearn raises on
an empty competence region or `np.argmin` on an empty array. -/
def dsnawStep (c : DSNAWcfg) (yTrain currLags : List ℚ) : Option (ℚ × ℕ) :=
  if (dsnawRegion c yTrain).1.isEmpty then none else
  if c.models.isEmpty then none else
  some ((c.models.getD
      (argminIdx (dsnawErrors c (dsnawRegion c yTrain).1 (dsnawRegion c yTrain).2))
      fun _ => 0) currLags,
    argminIdx (dsnawErrors c (dsnawRegion c yTrain).1 (dsnawRegion c yTrain).2))

/-- The loop of `DSNAW.predict`; an `Except.error` carries the history as
it stands when the exception is raised (a Python exception leaves
`self.history_errors` with the updates of the completed steps). -/
def dsnawLoop (c : DSNAWcfg) :
    List ℚ × List ℚ → Hist → List ℚ → Except Hist (List ℚ × Hist)
  | _, h, [] => .ok ([], h)
  | st, h, v :: fs =>
    match dsnawStep c st.1 st.2 with
    | none => .error h
    | some (yn, bi) =>
      match dsnawLoop c (advanceState st v) (updateHistory bi v yn h) fs with
      | .error hE => .error hE
      | .ok (rest, hF) => .ok (yn :: rest, hF)

/-- `DSNAW.predict`: length guard, train/future split, recursive rollout
with per-step history update; returns
`(forecast, y_real_future, history)` on success, and the history at the
point of failure on error. -/
def dsnawPredict (c : DSNAWcfg) (hist : Hist) (series : List ℚ)
    (horizon : ℕ) : Except Hist (List ℚ × List ℚ × Hist) :=
  if series.length < c.windowsSize + horizon then .error hist
  else
    let yTrain := pySliceToNeg horizon series
    let yFut := pySliceFromNeg horizon series
    let currLags := pySliceFromNeg c.windowsSize yTrain
    let futs := if horizon = 0 then [] else yFut
    match dsnawLoop c (yTrain, currLags) hist futs with
    | .error h => .error h
    | .ok (f, h) => .ok (f, yFut, h)

/-- Total number of stored error entries across all models. -/
def totalHist (h : Hist) : ℕ := (h.map List.length).sum

end SpecEmbed

namespace SpecEmbed

theorem argsortKeys_perm (keys : List ℚ) :
    List.Perm (argsortKeys keys) (List.range keys.length) :=
  List.perm_insertionSort _ _

theorem argsortKeys_length (keys : List ℚ) :
    (argsortKeys keys).length = keys.length := by
  rw [argsortKeys, List.length_insertionSort, List.length_range]

theorem argsortKeys_sorted (keys : List ℚ) :
    (argsortKeys keys).Sorted (keyLE keys) :=
  List.sorted_insertionSort _ _

/-- Mapping `getD` over `range l.length` reproduces `l`. -/
theorem map_getD_range {α : Type} (l : List α) (d : α) :
    (List.range l.length).map (fun i => l.getD i d) = l := by
  apply List.ext_get
  · simp
  · intro i h1 h2
    simp [List.getD_eq_getElem?_getD, List.getElem?_eq_getElem h2]

theorem getD_map_range {α : Type} (n : ℕ) (f : ℕ → α) (j : ℕ) (d : α)
    (hj : j < n) : ((List.range n).map f).getD j d = f j := by
  rw [List.getD_eq_getElem?_getD, List.getElem?_map, List.getElem?_range hj]
  rfl

theorem extractLagWindows_fst_length (W : ℕ) (s : List ℚ) :
    (extractLagWindows W s).1.length = s.length - 1 - W := by
  simp [extractLagWindows]

theorem extractLagWindows_snd_length (W : ℕ) (s : List ℚ) :
    (extractLagWindows W s).2.length = s.length - 1 - W := by
  simp [extractLagWindows]

end SpecEmbed

namespace SpecEmbed

/-- C3: `_extract_lag_windows` on a series of length `N` with window size
`W` returns exactly `max(0, N − W − 1)` (window, target) pairs; in index
order the pair at position `i − W` is `(series[i−W : i], series[i])` for
every `i` with `W ≤ i < N − 1`; every window has exactly `W` elements; and
every target comes from a series position strictly below `N − 1`, so the
final series element is never a target. -/
theorem claim_C3 (W : ℕ) (s : List ℚ) :
    ((extractLagWindows W s).1.length : ℤ) = max 0 ((s.length : ℤ) - W - 1) ∧
    ((extractLagWindows W s).2.length : ℤ) = max 0 ((s.length : ℤ) - W - 1) ∧
    (∀ w ∈ (extractLagWindows W s).1, w.length = W) ∧
    (∀ i : ℕ, W ≤ i → i < s.length - 1 →
      (extractLagWindows W s).1.getD (i - W) [] = (s.drop (i - W)).take W ∧
      (extractLagWindows W s).2.getD (i - W) 0 = s.getD i 0) ∧
    (∀ j : ℕ, j < (extractLagWindows W s).2.length → W + j < s.length - 1) := by
  have h1 := extractLagWindows_fst_length W s
  have h2 := extractLagWindows_snd_length W s
  refine ⟨by omega, by omega, ?_, ?_, by omega⟩
  · intro w hw
    rw [extractLagWindows] at hw
    simp only [List.mem_map, List.mem_range] at hw
    obtain ⟨j, hj, rfl⟩ := hw
    rw [List.length_take, List.length_drop]
    omega
  · intro i hWi hiN
    have hj : i - W < s.length - 1 - W := by omega
    constructor
    · rw [extractLagWindows, getD_map_range _ _ _ _ hj]
    · rw [extractLagWindows, getD_map_range _ _ _ _ hj]
      congr 1
      omega

/-- Concrete instantiation of `claim_C3`: window at position `1` of the
extraction with `W = 2` from `[1,2,3,4,5]` (i.e. `i = 3`). -/
theorem claim_C3_witness :
    (extractLagWindows 2 [1, 2, 3, 4, 5]).1.getD (3 - 2) [] =
      (([1, 2, 3, 4, 5] : List ℚ).drop (3 - 2)).take 2 ∧
    (extractLagWindows 2 [1, 2, 3, 4, 5]).2.getD (3 - 2) 0 =
      ([1, 2, 3, 4, 5] : List ℚ).getD 3 0 :=
  (claim_C3 2 [1, 2, 3, 4, 5]).2.2.2.1 3 (by decide) (by decide)

end SpecEmbed

namespace SpecEmbed

theorem iterAdvance_nil (st : List ℚ × List ℚ) : iterAdvance st [] = st := rfl

theorem iterAdvance_cons (st : List ℚ × List ℚ) (v : ℚ) (l : List ℚ) :
    iterAdvance st (v :: l) = iterAdvance (advanceState st v) l := rfl

theorem iterAdvance_fst (st : List ℚ × List ℚ) (l : List ℚ) :
    (iterAdvance st l).1 = st.1 ++ l := by
  induction l generalizing st with
  | nil => simp [iterAdvance_nil]
  | cons v fs ih =>
      rw [iterAdvance_cons, ih]
      simp [advanceState]

theorem advanceState_snd_length (st : List ℚ × List ℚ) (v : ℚ)
    (h : 1 ≤ st.2.length) :
    (advanceState st v).2.length = st.2.length := by
  simp only [advanceState, List.length_append, List.length_drop,
    List.length_cons, List.length_nil]
  omega

theorem iterAdvance_snd (st : List ℚ × List ℚ) (l : List ℚ)
    (h : 1 ≤ st.2.length) :
    (iterAdvance st l).2 = (st.2 ++ l).drop l.length := by
  induction l generalizing st with
  | nil => simp [iterAdvance_nil]
  | cons v fs ih =>
      rw [iterAdvance_cons, ih _ (by rw [advanceState_snd_length st v h]; exact h)]
      obtain ⟨x, xs, hx⟩ : ∃ x xs, st.2 = x :: xs := by
        cases hst : st.2 with
        | nil => rw [hst] at h; simp at h
        | cons x xs => exact ⟨x, xs, rfl⟩
      simp [advanceState, hx]

theorem iterAdvance_snd_length (st : List ℚ × List ℚ) (l : List ℚ)
    (h : 1 ≤ st.2.length) :
    (iterAdvance st l).2.length = st.2.length := by
  rw [iterAdvance_snd st l h]
  simp only [List.length_drop, List.length_append]
  omega

/-- Characterization of a successful `dcslaLoop` run: the forecast has one
entry per future value, and the entry at position `s` is the output of
`dcslaStep` at the state reached after `s` advances. -/
theorem dcslaLoop_ok (c : DCSLAcfg) (st : List ℚ × List ℚ) (futs f : List ℚ)
    (h : dcslaLoop c st futs = some f) :
    f.length = futs.length ∧
    ∀ s : ℕ, s < futs.length →
      dcslaStep c (iterAdvance st (futs.take s)).1 (iterAdvance st (futs.take s)).2 =
        some (f.getD s 0) := by
  induction futs generalizing st f with
  | nil =>
      simp only [dcslaLoop, Option.some.injEq] at h
      subst h
      exact ⟨rfl, by intro s hs; simp at hs⟩
  | cons v fs ih =>
      simp only [dcslaLoop, Option.bind_eq_bind, Option.bind_eq_some] at h
      obtain ⟨yn, hyn, rest, hrest, hf⟩ := h
      obtain ⟨hlen, hchar⟩ := ih (advanceState st v) rest hrest
      obtain rfl : yn :: rest = f := by simpa using hf
      refine ⟨by simp [hlen], ?_⟩
      intro s hs
      cases s with
      | zero => simpa [iterAdvance_nil] using hyn
      | succ s' =>
          rw [List.take_succ_cons, iterAdvance_cons]
          simpa using hchar s' (by simpa using hs)

/-- A `dcslaLoop` run succeeds when every step succeeds. -/
theorem dcslaLoop_isSome (c : DCSLAcfg) (st : List ℚ × List ℚ) (futs : List ℚ)
    (h : ∀ s : ℕ, s < futs.length →
      (dcslaStep c (iterAdvance st (futs.take s)).1
        (iterAdvance st (futs.take s)).2).isSome) :
    ∃ f : List ℚ, dcslaLoop c st futs = some f := by
  induction futs generalizing st with
  | nil => exact ⟨[], rfl⟩
  | cons v fs ih =>
      obtain ⟨yn, hyn⟩ := Option.isSome_iff_exists.mp
        (by simpa [iterAdvance_nil] using h 0 (by simp))
      obtain ⟨rest, hrest⟩ := ih (advanceState st v) (by
        intro s hs
        have := h (s + 1) (by simpa using hs)
        simpa [List.take_succ_cons, iterAdvance_cons] using this)
      exact ⟨yn :: rest, by simp [dcslaLoop, hyn, hrest]⟩

end SpecEmbed

namespace SpecEmbed

theorem argminIdx_lt_length (l : List ℚ) (h : l ≠ []) :
    argminIdx l < l.length := by
  match l with
  | [x] => simp [argminIdx]
  | x :: y :: xs =>
      rw [argminIdx]
      split
      · simp
      · have := argminIdx_lt_length (y :: xs) (by simp)
        simpa using Nat.succ_lt_succ this

theorem updateHistory_length (i : ℕ) (yT yP : ℚ) (h : Hist) :
    (updateHistory i yT yP h).length = h.length :=
  List.length_set h i _

theorem updateHistory_getD_self (i : ℕ) (yT yP : ℚ) (h : Hist)
    (hi : i < h.length) :
    (updateHistory i yT yP h).getD i [] = h.getD i [] ++ [|yT - yP|] := by
  rw [updateHistory, List.getD_eq_getElem?_getD, List.getElem?_set_self hi]
  simp

theorem updateHistory_getD_ne (i j : ℕ) (yT yP : ℚ) (h : Hist)
    (hij : j ≠ i) :
    (updateHistory i yT yP h).getD j [] = h.getD j [] := by
  rw [updateHistory, List.getD_eq_getElem?_getD,
    List.getElem?_set_ne (Ne.symm hij), ← List.getD_eq_getElem?_getD]

theorem totalHist_updateHistory (i : ℕ) (yT yP : ℚ) (h : Hist)
    (hi : i < h.length) :
    totalHist (updateHistory i yT yP h) = totalHist h + 1 := by
  induction h generalizing i with
  | nil => simp at hi
  | cons x xs ih =>
      cases i with
      | zero => simp [updateHistory, totalHist]; omega
      | succ i' =>
          have hx : updateHistory (i' + 1) yT yP (x :: xs) =
              x :: updateHistory i' yT yP xs := by
            simp [updateHistory, List.set]
          rw [hx]
          have := ih i' (by simpa using hi)
          simp only [totalHist, List.map_cons, List.sum_cons] at *
          omega

/-- What a successful `dsnawStep` returns: the chosen index is the argmin
of the per-model MAE scores over the trailing-exclusion region, it is a
valid model index, and the returned value is that model's prediction from
`curr_lags`. -/
theorem dsnawStep_some (c : DSNAWcfg) (yT cl : List ℚ) (v : ℚ) (bi : ℕ)
    (h : dsnawStep c yT cl = some (v, bi)) :
    bi < c.models.length ∧
    bi = argminIdx (dsnawErrors c (dsnawRegion c yT).1 (dsnawRegion c yT).2) ∧
    v = (c.models.getD bi fun _ => 0) cl := by
  rw [dsnawStep] at h
  split at h
  · exact absurd h (by simp)
  · split at h
    · exact absurd h (by simp)
    · rename_i hm
      simp only [Option.some.injEq, Prod.mk.injEq] at h
      obtain ⟨hv, hbi⟩ := h
      have hne : c.models ≠ [] := by
        intro hc; rw [hc] at hm; simp at hm
      refine ⟨?_, hbi.symm, hv.symm ▸ by rw [hbi]⟩
      subst hbi
      have := argminIdx_lt_length
        (dsnawErrors c (dsnawRegion c yT).1 (dsnawRegion c yT).2)
        (by simp [dsnawErrors]; exact hne)
      simpa [dsnawErrors] using this

/-- Characterization of a successful `dsnawLoop` run: one forecast entry
per future value, each produced by `dsnawStep` at the corresponding rolled
state. -/
theorem dsnawLoop_ok (c : DSNAWcfg) (st : List ℚ × List ℚ) (hist : Hist)
    (futs f : List ℚ) (hF : Hist)
    (h : dsnawLoop c st hist futs = .ok (f, hF)) :
    f.length = futs.length ∧
    ∀ s : ℕ, s < futs.length → ∃ bi : ℕ,
      dsnawStep c (iterAdvance st (futs.take s)).1 (iterAdvance st (futs.take s)).2 =
        some (f.getD s 0, bi) := by
  induction futs generalizing st hist f hF with
  | nil =>
      simp only [dsnawLoop, Except.ok.injEq, Prod.mk.injEq] at h
      obtain ⟨rfl, -⟩ := h
      exact ⟨rfl, by intro s hs; simp at hs⟩
  | cons v fs ih =>
      rw [dsnawLoop] at h
      split at h
      · exact absurd h (by simp)
      · rename_i yn bi hstep
        split at h
        · exact absurd h (by simp)
        · rename_i rest hFin hrec
          simp only [Except.ok.injEq, Prod.mk.injEq] at h
          obtain ⟨rfl, rfl⟩ : yn :: rest = f ∧ hFin = hF := by
            exact ⟨h.1, h.2⟩
          obtain ⟨hlen, hchar⟩ := ih (advanceState st v) _ rest hFin hrec
          refine ⟨by simp [hlen], ?_⟩
          intro s hs
          cases s with
          | zero => exact ⟨bi, by simpa [iterAdvance_nil] using hstep⟩
          | succ s' =>
              rw [List.take_succ_cons, iterAdvance_cons]
              simpa using hchar s' (by simpa using hs)

/-- A successful `dsnawLoop` run grows the total number of stored history
entries by exactly the number of steps. -/
theorem dsnawLoop_totalHist (c : DSNAWcfg) (st : List ℚ × List ℚ)
    (hist : Hist) (futs f : List ℚ) (hF : Hist)
    (hl : hist.length = c.models.length)
    (h : dsnawLoop c st hist futs = .ok (f, hF)) :
    totalHist hF = totalHist hist + futs.length := by
  induction futs generalizing st hist f hF with
  | nil =>
      simp only [dsnawLoop, Except.ok.injEq, Prod.mk.injEq] at h
      obtain ⟨-, rfl⟩ := h
      simp
  | cons v fs ih =>
      rw [dsnawLoop] at h
      split at h
      · exact absurd h (by simp)
      · rename_i yn bi hstep
        split at h
        · exact absurd h (by simp)
        · rename_i rest hFin hrec
          simp only [Except.ok.injEq, Prod.mk.injEq] at h
          obtain ⟨-, rfl⟩ : yn :: rest = f ∧ hF = hFin := ⟨h.1, h.2.symm⟩
          have hbi : bi < hist.length := by
            rw [hl]; exact (dsnawStep_some c st.1 st.2 yn bi hstep).1
          have := ih (advanceState st v) (updateHistory bi v yn hist) rest hF
            (by rw [updateHistory_length]; exact hl) hrec
          rw [this, totalHist_updateHistory bi v yn hist hbi]
          simp
          omega

end SpecEmbed

namespace SpecEmbed

theorem topIdx_length (sim : Similarity) (q : List ℚ) (ws : List (List ℚ))
    (k : ℕ) (hk : 1 ≤ k) :
    (topIdx sim q ws k).length = min k ws.length := by
  cases sim with
  | cosine =>
      rw [topIdx, pySliceFromNeg, if_neg (by omega), List.length_drop,
        argsortKeys_length, List.length_map]
      omega
  | euclidean =>
      rw [topIdx, List.length_take, argsortKeys_length, List.length_map]

theorem topIdx_ne_nil (sim : Similarity) (q : List ℚ) (ws : List (List ℚ))
    (k : ℕ) (hw : ws ≠ []) (hk : 1 ≤ k) : topIdx sim q ws k ≠ [] := by
  have hlen := topIdx_length sim q ws k hk
  intro hc
  rw [hc] at hlen
  simp only [List.length_nil] at hlen
  have : ws.length ≠ 0 := by
    intro h0; exact hw (List.length_eq_zero.mp h0)
  omega

/-- What a successful `dcslaStep` returns: the argmin (over the model
pool) of the in-sample MSE after refitting each model on the competence
region, applied to `curr_lags`. -/
theorem dcslaStep_some (c : DCSLAcfg) (yT cl : List ℚ) (v : ℚ)
    (h : dcslaStep c yT cl = some v) :
    v = (c.models.getD
        (argminIdx (dcslaErrors c (dcslaRegion c yT cl).1 (dcslaRegion c yT cl).2))
        fun _ _ _ => 0)
      (dcslaRegion c yT cl).1 (dcslaRegion c yT cl).2 cl := by
  rw [dcslaStep] at h
  split at h
  · exact absurd h (by simp)
  · split at h
    · exact absurd h (by simp)
    · split at h
      · exact absurd h (by simp)
      · simp only [Option.some.injEq] at h
        exact h.symm

/-- `dcslaStep` succeeds whenever the window set is nonempty, `top_k ≥ 1`
and the model pool is nonempty. -/
theorem dcslaStep_isSome (c : DCSLAcfg) (yT cl : List ℚ)
    (hw : (extractLagWindows c.windowsSize yT).1 ≠ [])
    (hk : 1 ≤ c.topK) (hm : c.models ≠ []) :
    (dcslaStep c yT cl).isSome := by
  rw [dcslaStep]
  rw [if_neg (by simpa using hw)]
  rw [if_neg (by
    simp only [List.isEmpty_iff, dcslaRegion]
    intro hc
    exact topIdx_ne_nil c.similarity cl (extractLagWindows c.windowsSize yT).1
      c.topK hw hk (List.map_eq_nil_iff.mp hc))]
  rw [if_neg (by simpa using hm)]
  rfl

/-- `dsnawStep` succeeds whenever the trailing-exclusion region is
nonempty and the model pool is nonempty. -/
theorem dsnawStep_isSome (c : DSNAWcfg) (yT cl : List ℚ)
    (hX : (dsnawRegion c yT).1 ≠ []) (hm : c.models ≠ []) :
    (dsnawStep c yT cl).isSome := by
  rw [dsnawStep]
  rw [if_neg (by simpa using hX), if_neg (by simpa using hm)]
  rfl

end SpecEmbed

namespace SpecEmbed

/-- The state `(y_train, curr_lags)` of `predict` (either variant) at the
start of step `s`: the initial split advanced `s` times by the revealed
true future values. -/
def rolloutState (W horizon : ℕ) (series : List ℚ) (s : ℕ) :
    List ℚ × List ℚ :=
  iterAdvance
    (pySliceToNeg horizon series,
     pySliceFromNeg W (pySliceToNeg horizon series))
    ((pySliceFromNeg horizon series).take s)

/-- The value claim C1 says `DCSLARegressor.predict` appends at step `s`:
refit every model in the pool on the step-`s` competence region, score
each by in-sample MSE on that same region, and let the model of minimum
error predict from `curr_lags`. -/
def dcslaSelectMinMSE (c : DCSLAcfg) (series : List ℚ) (horizon s : ℕ) : ℚ :=
  (c.models.getD
      (argminIdx (dcslaErrors c
        (dcslaRegion c (rolloutState c.windowsSize horizon series s).1
          (rolloutState c.windowsSize horizon series s).2).1
        (dcslaRegion c (rolloutState c.windowsSize horizon series s).1
          (rolloutState c.windowsSize horizon series s).2).2))
      fun _ _ _ => 0)
    (dcslaRegion c (rolloutState c.windowsSize horizon series s).1
      (rolloutState c.windowsSize horizon series s).2).1
    (dcslaRegion c (rolloutState c.windowsSize horizon series s).1
      (rolloutState c.windowsSize horizon series s).2).2
    (rolloutState c.windowsSize horizon series s).2

/-- The value claim C2 says `DSNAW.predict` appends at step `s`: score
every pretrained model by MAE on the step-`s` trailing-exclusion region
(no model is fit), and let the model of minimum MAE predict from
`curr_lags`. -/
def dsnawSelectMinMAE (c : DSNAWcfg) (series : List ℚ) (horizon s : ℕ) : ℚ :=
  (c.models.getD
      (argminIdx (dsnawErrors c
        (dsnawRegion c (rolloutState c.windowsSize horizon series s).1).1
        (dsnawRegion c (rolloutState c.windowsSize horizon series s).1).2))
      fun _ => 0)
    (rolloutState c.windowsSize horizon series s).2

theorem pySliceToNeg_length {α : Type} (k : ℕ) (l : List α) (hk : k ≠ 0) :
    (pySliceToNeg k l).length = l.length - k := by
  rw [pySliceToNeg, if_neg hk, List.length_take]
  omega

theorem pySliceFromNeg_length {α : Type} (k : ℕ) (l : List α) (hk : k ≠ 0)
    (hle : k ≤ l.length) : (pySliceFromNeg k l).length = k := by
  rw [pySliceFromNeg, if_neg hk, List.length_drop]
  omega

/-- Eliminator for a successful `dcslaPredict` call with positive horizon:
the length precondition holds, the returned actual-future block is the
last `horizon` elements, and the loop produced the forecast. -/
theorem dcslaPredict_some (c : DCSLAcfg) (series f a : List ℚ)
    (horizon : ℕ) (hh : horizon ≠ 0)
    (hp : dcslaPredict c series horizon = some (f, a)) :
    c.windowsSize + horizon ≤ series.length ∧
    a = pySliceFromNeg horizon series ∧
    dcslaLoop c
      (pySliceToNeg horizon series,
       pySliceFromNeg c.windowsSize (pySliceToNeg horizon series))
      (pySliceFromNeg horizon series) = some f := by
  have hg : ¬ series.length < c.windowsSize + horizon := by
    intro hlt
    rw [dcslaPredict, if_pos hlt] at hp
    exact absurd hp (by simp)
  simp only [dcslaPredict, if_neg hg, if_neg hh] at hp
  cases hl : dcslaLoop c
      (pySliceToNeg horizon series,
       pySliceFromNeg c.windowsSize (pySliceToNeg horizon series))
      (pySliceFromNeg horizon series) with
  | none => rw [hl] at hp; simp at hp
  | some f0 =>
      rw [hl] at hp
      simp only [Option.map_some', Option.some.injEq, Prod.mk.injEq] at hp
      obtain ⟨rfl, rfl⟩ := hp
      exact ⟨by omega, rfl, rfl⟩

/-- Eliminator for a successful `dsnawPredict` call with positive horizon. -/
theorem dsnawPredict_ok (c : DSNAWcfg) (hist : Hist) (series f a : List ℚ)
    (hF : Hist) (horizon : ℕ) (hh : horizon ≠ 0)
    (hp : dsnawPredict c hist series horizon = .ok (f, a, hF)) :
    c.windowsSize + horizon ≤ series.length ∧
    a = pySliceFromNeg horizon series ∧
    dsnawLoop c
      (pySliceToNeg horizon series,
       pySliceFromNeg c.windowsSize (pySliceToNeg horizon series))
      hist (pySliceFromNeg horizon series) = .ok (f, hF) := by
  have hg : ¬ series.length < c.windowsSize + horizon := by
    intro hlt
    rw [dsnawPredict, if_pos hlt] at hp
    exact absurd hp (by simp)
  simp only [dsnawPredict, if_neg hg, if_neg hh] at hp
  cases hl : dsnawLoop c
      (pySliceToNeg horizon series,
       pySliceFromNeg c.windowsSize (pySliceToNeg horizon series))
      hist (pySliceFromNeg horizon series) with
  | error hE => rw [hl] at hp; simp at hp
  | ok p =>
      obtain ⟨f0, h0⟩ := p
      rw [hl] at hp
      simp only [Except.ok.injEq, Prod.mk.injEq] at hp
      obtain ⟨rfl, rfl, rfl⟩ : f0 = f ∧ pySliceFromNeg horizon series = a ∧ h0 = hF :=
        ⟨hp.1, hp.2.1, hp.2.2⟩
      exact ⟨by omega, rfl, rfl⟩

end SpecEmbed

namespace SpecEmbed

/-- A mean-predictor base model for concrete instantiations: fitting
stores the mean of the targets. -/
def mFitMean : FitModel := fun _ y _ => y.sum / y.length

/-- A last-value base model for concrete instantiations: predicts the last
entry of the input window. -/
def mFitLast : FitModel := fun _ _ w => w.getD (w.length - 1) 0

/-- Concrete DCS-LA configuration for witnesses. -/
def cfgWitDCS : DCSLAcfg := ⟨[mFitMean, mFitLast], 3, 2, .cosine⟩

/-- Concrete series `1, …, 10` for witnesses. -/
def seriesTen : List ℚ := [1, 2, 3, 4, 5, 6, 7, 8, 9, 10]

/-- A constant-zero pretrained predictor for concrete instantiations. -/
def mPredZero : Predictor := fun _ => 0

/-- A last-value pretrained predictor for concrete instantiations. -/
def mPredLast : Predictor := fun w => w.getD (w.length - 1) 0

/-- Concrete DSNAW configuration for witnesses. -/
def cfgWitDSN : DSNAWcfg := ⟨[mPredZero, mPredLast], 2, 3⟩

/-- C1: at every forecast step `s` of `DCSLARegressor.predict`, every
model in the pool is refit on the competence region's windows and targets,
each refit model's mean squared error is computed by predicting on those
same windows (in-sample, no held-out split), and the model attaining the
minimum error is the one whose one-step prediction from `curr_lags` is the
entry appended to the forecast output at step `s` (compare
`dcslaSelectMinMSE`, which transcribes exactly that selection rule over
`dcslaErrors`/`dcslaRegion`). -/
theorem claim_C1 (c : DCSLAcfg) (series f a : List ℚ) (horizon s : ℕ)
    (hh : 1 ≤ horizon) (hs : s < horizon)
    (hp : dcslaPredict c series horizon = some (f, a)) :
    f.length = horizon ∧
    f.getD s 0 = dcslaSelectMinMSE c series horizon s := by
  obtain ⟨hlen, -, hloop⟩ := dcslaPredict_some c series f a horizon (by omega) hp
  have hfut : (pySliceFromNeg horizon series).length = horizon :=
    pySliceFromNeg_length horizon series (by omega) (by omega)
  obtain ⟨hflen, hchar⟩ := dcslaLoop_ok c _ _ _ hloop
  rw [hfut] at hflen
  refine ⟨hflen, ?_⟩
  have hstep := hchar s (by rw [hfut]; exact hs)
  have hv := dcslaStep_some c _ _ _ hstep
  simpa [dcslaSelectMinMSE, rolloutState] using hv

/-- Concrete instantiation of `claim_C1`. -/
theorem claim_C1_witness :
    ([13/2, 15/2] : List ℚ).length = 2 ∧
    ([13/2, 15/2] : List ℚ).getD 0 0 = dcslaSelectMinMSE cfgWitDCS seriesTen 2 0 :=
  claim_C1 cfgWitDCS seriesTen [13/2, 15/2] [9, 10] 2 0 (by decide) (by decide)
    (by norm_num [dcslaPredict, dcslaLoop, dcslaStep, dcslaRegion, dcslaErrors,
      topIdx, argsortKeys, keyLE, cosKey, dot, sqNorm, mseErr, extractLagWindows,
      pySliceToNeg, pySliceFromNeg, advanceState, iterAdvance, argminIdx, listMin,
      mFitMean, mFitLast, cfgWitDCS, seriesTen, List.range_succ,
      List.insertionSort, List.orderedInsert])

/-- C2: during `DSNAW.predict` no base model is ever fit or refit (a DSNAW
base model is a bare pretrained predictor and the same pool `c.models`
passes through every step unchanged); at each step `s` the competence
region is the lag-window set extracted from the current `y_train` with its
most recent `last_k` entries removed (`dsnawRegion`), every pretrained
model is scored by mean absolute error on that region (`dsnawErrors`), and
the model of minimum MAE produces the one-step prediction from `curr_lags`
(`dsnawSelectMinMAE` transcribes exactly that rule). -/
theorem claim_C2 (c : DSNAWcfg) (hist : Hist) (series f a : List ℚ)
    (hF : Hist) (horizon s : ℕ) (hh : 1 ≤ horizon) (hs : s < horizon)
    (hp : dsnawPredict c hist series horizon = .ok (f, a, hF)) :
    f.length = horizon ∧
    f.getD s 0 = dsnawSelectMinMAE c series horizon s := by
  obtain ⟨hlen, -, hloop⟩ := dsnawPredict_ok c hist series f a hF horizon (by omega) hp
  have hfut : (pySliceFromNeg horizon series).length = horizon :=
    pySliceFromNeg_length horizon series (by omega) (by omega)
  obtain ⟨hflen, hchar⟩ := dsnawLoop_ok c _ _ _ _ _ hloop
  rw [hfut] at hflen
  refine ⟨hflen, ?_⟩
  obtain ⟨bi, hstep⟩ := hchar s (by rw [hfut]; exact hs)
  obtain ⟨-, hbi, hv⟩ := dsnawStep_some c _ _ _ _ hstep
  rw [hv, hbi]
  simp [dsnawSelectMinMAE, rolloutState]

/-- Concrete instantiation of `claim_C2`. -/
theorem claim_C2_witness :
    ([8, 9] : List ℚ).length = 2 ∧
    ([8, 9] : List ℚ).getD 1 0 = dsnawSelectMinMAE cfgWitDSN seriesTen 2 1 :=
  claim_C2 cfgWitDSN [[], []] seriesTen [8, 9] [9, 10] [[], [1, 1]] 2 1
    (by decide) (by decide)
    (by norm_num [dsnawPredict, dsnawLoop, dsnawStep, dsnawRegion, dsnawErrors,
      updateHistory, maeErr, extractLagWindows, pySliceToNeg, pySliceFromNeg,
      advanceState, iterAdvance, argminIdx, listMin, mPredZero, mPredLast,
      cfgWitDSN, seriesTen, List.range_succ])

end SpecEmbed

namespace SpecEmbed

/-- C6: for both selector variants, `predict` fails whenever
`len(series) < windows_size + horizon`, and the failure happens before any
window extraction, model fitting, prediction or history update: the DCS-LA
result is bare `none` and the DSNAW error carries the caller's history
unchanged, so no partial result exists and the selector's state is
untouched. -/
theorem claim_C6 (cA : DCSLAcfg) (cB : DSNAWcfg) (hist : Hist)
    (series : List ℚ) (horizon : ℕ) :
    (series.length < cA.windowsSize + horizon →
      dcslaPredict cA series horizon = none) ∧
    (series.length < cB.windowsSize + horizon →
      dsnawPredict cB hist series horizon = .error hist) := by
  constructor
  · intro hlt
    rw [dcslaPredict, if_pos hlt]
  · intro hlt
    rw [dsnawPredict, if_pos hlt]

/-- Concrete DCS-LA configuration with `windows_size = 12` for the
insufficient-length scenario of the spec. -/
def cfgShortDCS : DCSLAcfg := ⟨[mFitMean], 12, 10, .cosine⟩

/-- Concrete DSNAW configuration with `windows_size = 12` for the
insufficient-length scenario of the spec. -/
def cfgShortDSN : DSNAWcfg := ⟨[mPredZero], 1, 12⟩

/-- Concrete instantiation of `claim_C6`: series of length 10,
`windows_size = 12`, `horizon = 1`. -/
theorem claim_C6_witness :
    dcslaPredict cfgShortDCS seriesTen 1 = none ∧
    dsnawPredict cfgShortDSN [[]] seriesTen 1 = .error [[]] :=
  ⟨(claim_C6 cfgShortDCS cfgShortDSN [[]] seriesTen 1).1 (by decide),
   (claim_C6 cfgShortDCS cfgShortDSN [[]] seriesTen 1).2 (by decide)⟩

/-- C7: throughout `predict` of both variants, `curr_lags` has exactly
`windows_size` elements at the start of every step `s ≤ horizon`; the
advance appends the revealed true value `y_real_future[s]` (never the
model's own prediction) to both `y_train` and `curr_lags`, dropping the
oldest lag — so the state is a function of the series alone, with
`curr_lags = series[N − horizon − W + s : N − horizon + s]` and
`y_train = series[: N − horizon + s]`. -/
theorem claim_C7 (series : List ℚ) (W horizon s : ℕ)
    (hW : 1 ≤ W) (hh : 1 ≤ horizon) (hlen : W + horizon ≤ series.length)
    (hs : s ≤ horizon) :
    (rolloutState W horizon series s).1 =
      series.take (series.length - horizon + s) ∧
    (rolloutState W horizon series s).2 =
      (series.drop (series.length - horizon - W + s)).take W ∧
    (rolloutState W horizon series s).2.length = W := by
  have hyT : pySliceToNeg horizon series =
      series.take (series.length - horizon) := by
    rw [pySliceToNeg, if_neg (by omega)]
  have hyF : pySliceFromNeg horizon series =
      series.drop (series.length - horizon) := by
    rw [pySliceFromNeg, if_neg (by omega)]
  have hyTlen : (pySliceToNeg horizon series).length =
      series.length - horizon := pySliceToNeg_length _ _ (by omega)
  have hcl : pySliceFromNeg W (pySliceToNeg horizon series) =
      (series.drop (series.length - horizon - W)).take W := by
    rw [pySliceFromNeg, if_neg (by omega), hyTlen, hyT, List.drop_take]
    congr 1
    omega
  have hcllen : (pySliceFromNeg W (pySliceToNeg horizon series)).length = W := by
    rw [hcl, List.length_take, List.length_drop]
    omega
  have h1 : 1 ≤ (pySliceFromNeg W (pySliceToNeg horizon series)).length := by
    omega
  have hfl : (pySliceFromNeg horizon series).length = horizon :=
    pySliceFromNeg_length _ _ (by omega) (by omega)
  have htl : ((pySliceFromNeg horizon series).take s).length = s := by
    rw [List.length_take, hfl]
    omega
  refine ⟨?_, ?_, ?_⟩
  · rw [rolloutState, iterAdvance_fst]
    simp only
    rw [hyT, hyF, ← List.take_add]
  · rw [rolloutState, iterAdvance_snd _ _ h1]
    simp only
    rw [htl, hcl, hyF]
    have hdd : series.drop (series.length - horizon) =
        (series.drop (series.length - horizon - W)).drop W := by
      rw [List.drop_drop]
      congr 1
      omega
    rw [hdd, ← List.take_add, List.drop_take, List.drop_drop]
    congr 1
    omega
  · rw [rolloutState, iterAdvance_snd_length _ _ h1]
    simp only
    exact hcllen

/-- Concrete instantiation of `claim_C7`. -/
theorem claim_C7_witness :
    (rolloutState 3 2 seriesTen 1).1 = seriesTen.take (seriesTen.length - 2 + 1) ∧
    (rolloutState 3 2 seriesTen 1).2 =
      (seriesTen.drop (seriesTen.length - 2 - 3 + 1)).take 3 ∧
    (rolloutState 3 2 seriesTen 1).2.length = 3 :=
  claim_C7 seriesTen 3 2 1 (by decide) (by decide) (by decide) (by decide)

end SpecEmbed

namespace SpecEmbed

theorem pySliceToNeg_eq_nil {α : Type} (k : ℕ) (l : List α)
    (hk : l.length ≤ k) : pySliceToNeg k l = [] := by
  rw [pySliceToNeg]
  split
  · rfl
  · have h0 : l.length - k = 0 := by omega
    rw [h0, List.take_zero]

/-- C8: after each step of `DSNAW.predict` exactly one entry — the
absolute error `|y_true − y_pred|` of the chosen model's prediction
against the revealed true value — is appended to the history under the
chosen model's key, every other model's error sequence is unchanged and
the total count grows by one (`updateHistory`, the embedding of
`update_history` on the singleton dict, is the only history mutation of
the loop); consequently a successful `predict` call with horizon `h`
grows the total number of stored entries by exactly `h`, and the history
is never cleared. -/
theorem claim_C8 :
    (∀ (i : ℕ) (yT yP : ℚ) (h : Hist), i < h.length →
      (updateHistory i yT yP h).getD i [] = h.getD i [] ++ [|yT - yP|] ∧
      (∀ j : ℕ, j ≠ i → (updateHistory i yT yP h).getD j [] = h.getD j []) ∧
      totalHist (updateHistory i yT yP h) = totalHist h + 1) ∧
    (∀ (c : DSNAWcfg) (hist : Hist) (series f a : List ℚ) (hF : Hist)
      (horizon : ℕ), 1 ≤ horizon → hist.length = c.models.length →
      dsnawPredict c hist series horizon = .ok (f, a, hF) →
      totalHist hF = totalHist hist + horizon) := by
  constructor
  · intro i yT yP h hi
    exact ⟨updateHistory_getD_self i yT yP h hi,
      fun j hj => updateHistory_getD_ne i j yT yP h hj,
      totalHist_updateHistory i yT yP h hi⟩
  · intro c hist series f a hF horizon hh hl hp
    obtain ⟨hg, -, hloop⟩ := dsnawPredict_ok c hist series f a hF horizon (by omega) hp
    have hfl : (pySliceFromNeg horizon series).length = horizon :=
      pySliceFromNeg_length _ _ (by omega) (by omega)
    have := dsnawLoop_totalHist c _ hist _ f hF hl hloop
    rw [hfl] at this
    exact this

/-- Concrete instantiation of `claim_C8`. -/
theorem claim_C8_witness :
    (updateHistory 1 (9 : ℚ) 8 [[], []]).getD 1 [] =
      ([] : List ℚ) ++ [|(9 : ℚ) - 8|] ∧
    totalHist [[], [1, 1]] = totalHist [[], []] + 2 :=
  ⟨(claim_C8.1 1 9 8 [[], []] (by decide)).1,
   claim_C8.2 cfgWitDSN [[], []] seriesTen [8, 9] [9, 10] [[], [1, 1]] 2
     (by decide) (by decide)
     (by norm_num [dsnawPredict, dsnawLoop, dsnawStep, dsnawRegion, dsnawErrors,
       updateHistory, maeErr, extractLagWindows, pySliceToNeg, pySliceFromNeg,
       advanceState, iterAdvance, argminIdx, listMin, mPredZero, mPredLast,
       cfgWitDSN, seriesTen, List.range_succ])⟩

/-- C9: whenever `last_k` is at least the number of windows extracted from
the initial `y_train`, `DSNAW.predict` (with a positive horizon and the
length precondition met) fails at the first step — the trailing-exclusion
region is empty and scoring raises — returning an error that carries the
unchanged history, never an empty or partial forecast. -/
theorem claim_C9 (c : DSNAWcfg) (hist : Hist) (series : List ℚ)
    (horizon : ℕ) (hh : 1 ≤ horizon)
    (hg : c.windowsSize + horizon ≤ series.length)
    (hk : (extractLagWindows c.windowsSize (pySliceToNeg horizon series)).1.length ≤
      c.lastK) :
    dsnawPredict c hist series horizon = .error hist := by
  have hfl : (pySliceFromNeg horizon series).length = horizon :=
    pySliceFromNeg_length _ _ (by omega) (by omega)
  obtain ⟨v, fs, hvfs⟩ : ∃ v fs, pySliceFromNeg horizon series = v :: fs := by
    cases hE : pySliceFromNeg horizon series with
    | nil => rw [hE] at hfl; simp at hfl; omega
    | cons v fs => exact ⟨v, fs, rfl⟩
  have hstep : dsnawStep c (pySliceToNeg horizon series)
      (pySliceFromNeg c.windowsSize (pySliceToNeg horizon series)) = none := by
    rw [dsnawStep, if_pos]
    simp only [dsnawRegion, List.isEmpty_iff]
    exact pySliceToNeg_eq_nil _ _ hk
  simp only [dsnawPredict, if_neg (show ¬ series.length < c.windowsSize + horizon by omega),
    if_neg (show ¬ horizon = 0 by omega), hvfs]
  rw [dsnawLoop]
  simp only [hstep]

/-- Concrete DSNAW configuration with `last_k = 10` exceeding the number
of available windows. -/
def cfgC9 : DSNAWcfg := ⟨[mPredZero, mPredLast], 10, 3⟩

/-- Concrete instantiation of `claim_C9`. -/
theorem claim_C9_witness :
    dsnawPredict cfgC9 [[], []] seriesTen 2 = .error [[], []] :=
  claim_C9 cfgC9 [[], []] seriesTen 2 (by decide) (by decide) (by decide)

/-- C10: when `top_k` is at least the number of extracted windows,
`DCSLARegressor.predict`'s ranking step does not fail under either metric:
the Python slices clamp, the competence region is a permutation of all
available windows with size `min(top_k, number of windows)`, and the step
proceeds to a normal prediction — a silent downward clamp. -/
theorem claim_C10 (c : DCSLAcfg) (yTrain currLags : List ℚ)
    (hw : (extractLagWindows c.windowsSize yTrain).1 ≠ [])
    (hk : (extractLagWindows c.windowsSize yTrain).1.length ≤ c.topK)
    (hm : c.models ≠ []) :
    List.Perm (dcslaRegion c yTrain currLags).1
      (extractLagWindows c.windowsSize yTrain).1 ∧
    (dcslaRegion c yTrain currLags).1.length =
      min c.topK (extractLagWindows c.windowsSize yTrain).1.length ∧
    ∃ v : ℚ, dcslaStep c yTrain currLags = some v := by
  have hn1 : 1 ≤ (extractLagWindows c.windowsSize yTrain).1.length := by
    have : (extractLagWindows c.windowsSize yTrain).1.length ≠ 0 := by
      intro h0
      exact hw (List.length_eq_zero.mp h0)
    omega
  have hk1 : 1 ≤ c.topK := by omega
  obtain ⟨keys, hkl, htop⟩ : ∃ keys : List ℚ,
      keys.length = (extractLagWindows c.windowsSize yTrain).1.length ∧
      topIdx c.similarity currLags (extractLagWindows c.windowsSize yTrain).1 c.topK =
        argsortKeys keys := by
    cases hsim : c.similarity with
    | cosine =>
        refine ⟨(extractLagWindows c.windowsSize yTrain).1.map (cosKey currLags),
          by simp, ?_⟩
        rw [topIdx, pySliceFromNeg, if_neg (by omega)]
        have h0 : (argsortKeys ((extractLagWindows c.windowsSize yTrain).1.map
            (cosKey currLags))).length - c.topK = 0 := by
          rw [argsortKeys_length, List.length_map]
          omega
        rw [h0, List.drop_zero]
    | euclidean =>
        refine ⟨(extractLagWindows c.windowsSize yTrain).1.map (sqDist currLags),
          by simp, ?_⟩
        rw [topIdx]
        exact List.take_of_length_le (by rw [argsortKeys_length, List.length_map]; omega)
  refine ⟨?_, ?_, ?_⟩
  · show ((topIdx c.similarity currLags (extractLagWindows c.windowsSize yTrain).1
        c.topK).map fun i => (extractLagWindows c.windowsSize yTrain).1.getD i []).Perm
      (extractLagWindows c.windowsSize yTrain).1
    rw [htop]
    have hp1 := (argsortKeys_perm keys).map
      fun i => (extractLagWindows c.windowsSize yTrain).1.getD i []
    have hp2 : (List.range keys.length).map
        (fun i => (extractLagWindows c.windowsSize yTrain).1.getD i []) =
        (extractLagWindows c.windowsSize yTrain).1 := by
      rw [hkl, map_getD_range]
    rw [hp2] at hp1
    exact hp1
  · show ((topIdx c.similarity currLags (extractLagWindows c.windowsSize yTrain).1
        c.topK).map fun i => (extractLagWindows c.windowsSize yTrain).1.getD i []).length =
      _
    rw [List.length_map, topIdx_length _ _ _ _ hk1]
  · exact Option.isSome_iff_exists.mp (dcslaStep_isSome c yTrain currLags hw hk1 hm)

/-- Concrete DCS-LA configuration with `top_k = 10` exceeding the number
of available windows. -/
def cfgC10 : DCSLAcfg := ⟨[mFitMean], 2, 10, .cosine⟩

/-- Concrete instantiation of `claim_C10`. -/
theorem claim_C10_witness :
    List.Perm (dcslaRegion cfgC10 [1, 2, 3, 4, 5] [4, 5]).1
      (extractLagWindows 2 [1, 2, 3, 4, 5]).1 ∧
    (dcslaRegion cfgC10 [1, 2, 3, 4, 5] [4, 5]).1.length =
      min 10 (extractLagWindows 2 [1, 2, 3, 4, 5]).1.length ∧
    ∃ v : ℚ, dcslaStep cfgC10 [1, 2, 3, 4, 5] [4, 5] = some v :=
  claim_C10 cfgC10 [1, 2, 3, 4, 5] [4, 5] (by simp [extractLagWindows, cfgC10])
    (by decide) (by simp [cfgC10])

end SpecEmbed

namespace SpecEmbed

theorem sorted_take_drop (l : List ℕ) (r : ℕ → ℕ → Prop) (n : ℕ)
    (h : l.Pairwise r) :
    (l.take n).Pairwise r ∧ (l.drop n).Pairwise r ∧
    ∀ a ∈ l.take n, ∀ b ∈ l.drop n, r a b := by
  have h2 : (l.take n ++ l.drop n).Pairwise r := by
    rw [List.take_append_drop]
    exact h
  exact ⟨h.sublist (List.take_sublist n l), h.sublist (List.drop_sublist n l),
    (List.pairwise_append.mp h2).2.2⟩

/-- C4 counterexample: with the cosine metric, query `[1, 0]` and windows
`[[1,0], [0,1], [1,1]]`, `top_k = 2` selects `[[1,1], [1,0]]` — the entry
of strictly smaller cosine similarity first.  The selection is in
ascending-score order, refuting the claimed descending-score order. -/
theorem claim_C4_cex :
    topIdx Similarity.cosine [1, 0] [[1, 0], [0, 1], [1, 1]] 2 = [2, 0] ∧
    cosKey [1, 0] [1, 1] < cosKey [1, 0] [1, 0] ∧
    ¬ ((topIdx Similarity.cosine [1, 0] [[1, 0], [0, 1], [1, 1]] 2).map
        fun i => ([[1, 0], [0, 1], [1, 1]].map (cosKey [1, 0])).getD i 0).Sorted
      (fun a b : ℚ => b ≤ a) := by
  have h1 : topIdx Similarity.cosine [1, 0] [[1, 0], [0, 1], [1, 1]] 2 = [2, 0] := by
    norm_num [topIdx, argsortKeys, keyLE, cosKey, dot, sqNorm, pySliceFromNeg,
      List.range_succ, List.insertionSort, List.orderedInsert]
  have h2 : cosKey [1, 0] [1, 1] < cosKey [1, 0] [1, 0] := by
    norm_num [cosKey, dot, sqNorm]
  refine ⟨h1, h2, ?_⟩
  rw [h1]
  have hk2 : ([[1, 0], [0, 1], [1, 1]].map (cosKey [1, 0])).getD 2 0 = 1/2 := by
    norm_num [cosKey, dot, sqNorm]
  have hk0 : ([[1, 0], [0, 1], [1, 1]].map (cosKey [1, 0])).getD 0 0 = 1 := by
    norm_num [cosKey, dot, sqNorm]
  simp only [List.map_cons, List.map_nil, hk2, hk0]
  simp only [List.sorted_cons]
  norm_num [cosKey, dot, sqNorm]

/-- C4 (amended): in `DCSLARegressor.predict`, with the cosine metric the
competence region consists of the `min(top_k, n)` entries of largest
cosine-similarity key, selected in ASCENDING-score order (the code takes
`argsort()[-top_k:]`, the tail of an ascending sort — not descending as
claimed); with the euclidean metric it consists of the `min(top_k, n)`
entries of smallest distance in ascending-distance order.  In both cases
every selected entry's key dominates (resp. is dominated by) every
non-selected entry's key. -/
theorem claim_C4 (q : List ℚ) (ws : List (List ℚ)) (k : ℕ) (hk : 1 ≤ k) :
    (topIdx Similarity.cosine q ws k =
      (argsortKeys (ws.map (cosKey q))).drop
        ((argsortKeys (ws.map (cosKey q))).length - k) ∧
     (topIdx Similarity.cosine q ws k).length = min k ws.length ∧
     ((topIdx Similarity.cosine q ws k).map
        fun i => (ws.map (cosKey q)).getD i 0).Sorted (· ≤ ·) ∧
     ∀ i ∈ (argsortKeys (ws.map (cosKey q))).take
        ((argsortKeys (ws.map (cosKey q))).length - k),
       ∀ j ∈ topIdx Similarity.cosine q ws k,
         (ws.map (cosKey q)).getD i 0 ≤ (ws.map (cosKey q)).getD j 0) ∧
    (topIdx Similarity.euclidean q ws k =
      (argsortKeys (ws.map (sqDist q))).take k ∧
     (topIdx Similarity.euclidean q ws k).length = min k ws.length ∧
     ((topIdx Similarity.euclidean q ws k).map
        fun i => (ws.map (sqDist q)).getD i 0).Sorted (· ≤ ·) ∧
     ∀ j ∈ topIdx Similarity.euclidean q ws k,
       ∀ i ∈ (argsortKeys (ws.map (sqDist q))).drop k,
         (ws.map (sqDist q)).getD j 0 ≤ (ws.map (sqDist q)).getD i 0) := by
  constructor
  · have heq : topIdx Similarity.cosine q ws k =
        (argsortKeys (ws.map (cosKey q))).drop
          ((argsortKeys (ws.map (cosKey q))).length - k) := by
      rw [topIdx, pySliceFromNeg, if_neg (by omega)]
    have hsorted := argsortKeys_sorted (ws.map (cosKey q))
    obtain ⟨-, hdropS, hcross⟩ := sorted_take_drop _ _
      ((argsortKeys (ws.map (cosKey q))).length - k) hsorted
    refine ⟨heq, topIdx_length _ _ _ _ hk, ?_, ?_⟩
    · rw [heq]
      exact List.pairwise_map.mpr hdropS
    · intro i hi j hj
      rw [heq] at hj
      exact hcross i hi j hj
  · have heq : topIdx Similarity.euclidean q ws k =
        (argsortKeys (ws.map (sqDist q))).take k := rfl
    have hsorted := argsortKeys_sorted (ws.map (sqDist q))
    obtain ⟨htakeS, -, hcross⟩ := sorted_take_drop _ _ k hsorted
    refine ⟨heq, topIdx_length _ _ _ _ hk, ?_, ?_⟩
    · rw [heq]
      exact List.pairwise_map.mpr htakeS
    · intro j hj i hi
      rw [heq] at hj
      exact hcross j hj i hi

/-- Concrete instantiation of `claim_C4`. -/
theorem claim_C4_witness :
    (topIdx Similarity.cosine [1, 0] [[1, 0], [0, 1], [1, 1]] 2).length =
      min 2 ([[1, 0], [0, 1], [1, 1]] : List (List ℚ)).length ∧
    ((topIdx Similarity.cosine [1, 0] [[1, 0], [0, 1], [1, 1]] 2).map
      fun i => ([[1, 0], [0, 1], [1, 1]].map (cosKey [1, 0])).getD i 0).Sorted
      (· ≤ ·) :=
  ⟨(claim_C4 [1, 0] [[1, 0], [0, 1], [1, 1]] 2 (by decide)).1.2.1,
   (claim_C4 [1, 0] [[1, 0], [0, 1], [1, 1]] 2 (by decide)).1.2.2.1⟩

end SpecEmbed

namespace SpecEmbed

theorem pySliceToNeg_ne_nil {α : Type} (k : ℕ) (l : List α) (hk : 1 ≤ k)
    (hlt : k < l.length) : pySliceToNeg k l ≠ [] := by
  intro hc
  have hln := pySliceToNeg_length k l (by omega)
  rw [hc] at hln
  simp only [List.length_nil] at hln
  omega

/-- A `dsnawLoop` run succeeds when every step succeeds. -/
theorem dsnawLoop_isSome (c : DSNAWcfg) (st : List ℚ × List ℚ) (hist : Hist)
    (futs : List ℚ)
    (h : ∀ s : ℕ, s < futs.length →
      (dsnawStep c (iterAdvance st (futs.take s)).1
        (iterAdvance st (futs.take s)).2).isSome) :
    ∃ (f : List ℚ) (hF : Hist), dsnawLoop c st hist futs = .ok (f, hF) := by
  induction futs generalizing st hist with
  | nil => exact ⟨[], hist, rfl⟩
  | cons v fs ih =>
      obtain ⟨p, hp⟩ := Option.isSome_iff_exists.mp
        (by simpa [iterAdvance_nil] using h 0 (by simp))
      obtain ⟨yn, bi⟩ := p
      obtain ⟨rest, hF, hrest⟩ := ih (advanceState st v)
        (updateHistory bi v yn hist) (by
          intro s hs
          have := h (s + 1) (by simpa using hs)
          simpa [List.take_succ_cons, iterAdvance_cons] using this)
      refine ⟨yn :: rest, hF, ?_⟩
      simp only [dsnawLoop, hp, hrest]

/-- Concrete DCS-LA configuration with `windows_size = 1` for the C5
boundary counterexample. -/
def cfgC5 : DCSLAcfg := ⟨[mFitLast], 1, 1, .cosine⟩

/-- C5 counterexample: at the boundary `len(series) = windows_size +
horizon` (series `[1, 2]`, `windows_size = 1`, `horizon = 1`, nonempty
pool with total fit/predict, `top_k = 1`), `DCSLARegressor.predict` does
not return a forecast of length `horizon`: the training prefix yields zero
windows and the similarity computation fails, so the call errors
(`none`). -/
theorem claim_C5_cex :
    cfgC5.windowsSize + 1 ≤ ([1, 2] : List ℚ).length ∧
    cfgC5.models ≠ [] ∧ 1 ≤ cfgC5.topK ∧
    dcslaPredict cfgC5 [1, 2] 1 = none := by
  refine ⟨by decide, by simp [cfgC5], by decide, ?_⟩
  rfl

/-- C5 (amended): for both variants `predict` returns
`(forecast, actual_future)` with both lengths equal to `horizon` and
`actual_future` the last `horizon` elements of the series — provided the
series has at least `windows_size + horizon + 2` points for DCS-LA (so at
least one lag window exists at every step; at `windows_size + horizon`
and `windows_size + horizon + 1` exactly, the claim fails, see the
counterexample), positive `top_k`/`window` size, a nonempty pool, and for
DSNAW a positive `last_k` strictly below the initial number of extracted
windows. -/
theorem claim_C5 :
    (∀ (c : DCSLAcfg) (series : List ℚ) (horizon : ℕ),
      1 ≤ c.windowsSize → 1 ≤ c.topK → c.models ≠ [] → 1 ≤ horizon →
      c.windowsSize + horizon + 2 ≤ series.length →
      ∃ f : List ℚ, dcslaPredict c series horizon =
          some (f, pySliceFromNeg horizon series) ∧
        f.length = horizon ∧ (pySliceFromNeg horizon series).length = horizon) ∧
    (∀ (c : DSNAWcfg) (hist : Hist) (series : List ℚ) (horizon : ℕ),
      1 ≤ c.windowsSize → c.models ≠ [] → 1 ≤ horizon → 1 ≤ c.lastK →
      c.lastK <
        (extractLagWindows c.windowsSize (pySliceToNeg horizon series)).1.length →
      c.windowsSize + horizon ≤ series.length →
      ∃ (f : List ℚ) (hF : Hist), dsnawPredict c hist series horizon =
          .ok (f, pySliceFromNeg horizon series, hF) ∧
        f.length = horizon ∧ (pySliceFromNeg horizon series).length = horizon) := by
  constructor
  · intro c series horizon hW hk hm hh hlen
    have hg : ¬ series.length < c.windowsSize + horizon := by omega
    have hyTlen : (pySliceToNeg horizon series).length =
        series.length - horizon := pySliceToNeg_length _ _ (by omega)
    have hfl : (pySliceFromNeg horizon series).length = horizon :=
      pySliceFromNeg_length _ _ (by omega) (by omega)
    have hsteps : ∀ s : ℕ, s < (pySliceFromNeg horizon series).length →
        (dcslaStep c
          (iterAdvance (pySliceToNeg horizon series,
            pySliceFromNeg c.windowsSize (pySliceToNeg horizon series))
            ((pySliceFromNeg horizon series).take s)).1
          (iterAdvance (pySliceToNeg horizon series,
            pySliceFromNeg c.windowsSize (pySliceToNeg horizon series))
            ((pySliceFromNeg horizon series).take s)).2).isSome := by
      intro s hs
      apply dcslaStep_isSome _ _ _ _ hk hm
      intro hnil
      have h2 := extractLagWindows_fst_length c.windowsSize
        (iterAdvance (pySliceToNeg horizon series,
          pySliceFromNeg c.windowsSize (pySliceToNeg horizon series))
          ((pySliceFromNeg horizon series).take s)).1
      rw [hnil, iterAdvance_fst] at h2
      simp only [List.length_nil, List.length_append, List.length_take] at h2
      omega
    obtain ⟨f, hf⟩ := dcslaLoop_isSome c _ _ hsteps
    obtain ⟨hflen, -⟩ := dcslaLoop_ok c _ _ f hf
    refine ⟨f, ?_, by rw [hflen, hfl], hfl⟩
    simp only [dcslaPredict, if_neg hg, if_neg (show ¬ horizon = 0 by omega),
      hf, Option.map_some']
  · intro c hist series horizon hW hm hh hk1 hkn hlen
    have hg : ¬ series.length < c.windowsSize + horizon := by omega
    have hyTlen : (pySliceToNeg horizon series).length =
        series.length - horizon := pySliceToNeg_length _ _ (by omega)
    have hn0 := extractLagWindows_fst_length c.windowsSize
      (pySliceToNeg horizon series)
    have hfl : (pySliceFromNeg horizon series).length = horizon :=
      pySliceFromNeg_length _ _ (by omega) (by omega)
    have hsteps : ∀ s : ℕ, s < (pySliceFromNeg horizon series).length →
        (dsnawStep c
          (iterAdvance (pySliceToNeg horizon series,
            pySliceFromNeg c.windowsSize (pySliceToNeg horizon series))
            ((pySliceFromNeg horizon series).take s)).1
          (iterAdvance (pySliceToNeg horizon series,
            pySliceFromNeg c.windowsSize (pySliceToNeg horizon series))
            ((pySliceFromNeg horizon series).take s)).2).isSome := by
      intro s hs
      apply dsnawStep_isSome _ _ _ _ hm
      rw [hn0, hyTlen] at hkn
      show pySliceToNeg c.lastK _ ≠ []
      apply pySliceToNeg_ne_nil _ _ hk1
      rw [extractLagWindows_fst_length, iterAdvance_fst]
      simp only [List.length_append, List.length_take]
      omega
    obtain ⟨f, hF, hf⟩ := dsnawLoop_isSome c _ hist _ hsteps
    obtain ⟨hflen, -⟩ := dsnawLoop_ok c _ _ _ f hF hf
    refine ⟨f, hF, ?_, by rw [hflen, hfl], hfl⟩
    simp only [dsnawPredict, if_neg hg, if_neg (show ¬ horizon = 0 by omega), hf]

/-- Concrete instantiation of `claim_C5` (both variants). -/
theorem claim_C5_witness :
    (∃ f : List ℚ, dcslaPredict cfgWitDCS seriesTen 2 =
        some (f, pySliceFromNeg 2 seriesTen) ∧
      f.length = 2 ∧ (pySliceFromNeg 2 seriesTen).length = 2) ∧
    (∃ (f : List ℚ) (hF : Hist), dsnawPredict cfgWitDSN [[], []] seriesTen 2 =
        .ok (f, pySliceFromNeg 2 seriesTen, hF) ∧
      f.length = 2 ∧ (pySliceFromNeg 2 seriesTen).length = 2) :=
  ⟨claim_C5.1 cfgWitDCS seriesTen 2 (by decide) (by decide)
      (by simp [cfgWitDCS]) (by decide) (by decide),
   claim_C5.2 cfgWitDSN [[], []] seriesTen 2 (by decide)
      (by simp [cfgWitDSN]) (by decide) (by decide) (by decide) (by decide)⟩

end SpecEmbed
